import Mathlib

/-!
Shallow embedding of the command-sync and directory-publishing logic of
src/discordjs/index.js (classes TopGGIntegration and CommandSyncer).

External effects (the platform fetch, the bulk PUT, the per-command POST,
and the HTTP POST to the directory endpoint) are modelled by explicit
environment records holding the outcome of each call; JavaScript objects
become Lean structures.  In discord.js the description field of a fetched
command or option is always a string (the empty string when the platform
supplies none), so the JavaScript falsy coalescing on descriptions is
modelled as a test for the empty string; an absent choices or options
array is conflated with the empty array, which is behaviour-preserving
because the source only ever tests definedness together with nonemptiness.
-/

namespace TopGG

/-- A choice entry of a command option (a name/value pair); the converter
copies choice lists verbatim. -/
structure Choice where
  name : String
  value : String
deriving DecidableEq

/-- A slash-command option as fetched from the platform, the input of
convertOptionToTopGGFormat (src/discordjs/index.js lines 161-180).
subOptions models the nested option.options array. -/
inductive OptionDescriptor where
  | mk : (name description : String) → (type : Nat) → (required : Bool) →
      (choices : List Choice) → (subOptions : List OptionDescriptor) → OptionDescriptor

def OptionDescriptor.name : OptionDescriptor → String
  | .mk n _ _ _ _ _ => n

def OptionDescriptor.description : OptionDescriptor → String
  | .mk _ d _ _ _ _ => d

def OptionDescriptor.type : OptionDescriptor → Nat
  | .mk _ _ t _ _ _ => t

def OptionDescriptor.required : OptionDescriptor → Bool
  | .mk _ _ _ r _ _ => r

def OptionDescriptor.choices : OptionDescriptor → List Choice
  | .mk _ _ _ _ cs _ => cs

def OptionDescriptor.subOptions : OptionDescriptor → List OptionDescriptor
  | .mk _ _ _ _ _ subs => subs

/-- The converted option payload built by convertOptionToTopGGFormat.
The choices and options fields are Option-valued because the source adds
them to the object only conditionally. -/
inductive OptionData where
  | mk : (name description : String) → (type : Nat) → (required : Bool) →
      (choices : Option (List Choice)) → (options : Option (List OptionData)) → OptionData

def OptionData.name : OptionData → String
  | .mk n _ _ _ _ _ => n

def OptionData.description : OptionData → String
  | .mk _ d _ _ _ _ => d

def OptionData.type : OptionData → Nat
  | .mk _ _ t _ _ _ => t

def OptionData.required : OptionData → Bool
  | .mk _ _ _ r _ _ => r

def OptionData.choices : OptionData → Option (List Choice)
  | .mk _ _ _ _ cs _ => cs

def OptionData.options : OptionData → Option (List OptionData)
  | .mk _ _ _ _ _ os => os

mutual

/-- TopGGIntegration.convertOptionToTopGGFormat (src/discordjs/index.js
lines 161-180): copies name and type, coalesces a missing description to
the placeholder, defaults required to false, and adds choices and the
recursively converted sub-options only when those lists are nonempty. -/
def convertOptionToTopGGFormat : OptionDescriptor → OptionData
  | .mk n d t r cs subs =>
      .mk n (if d = "" then "Parameter" else d) t (r || false)
        (if cs.length > 0 then some cs else none)
        (if subs.length > 0 then some (convertOptionList subs) else none)

/-- The elementwise application of convertOptionToTopGGFormat performed by
option.options.map in the source. -/
def convertOptionList : List OptionDescriptor → List OptionData
  | [] => []
  | o :: os => convertOptionToTopGGFormat o :: convertOptionList os

end

/-- The numeric discriminator of chat-input commands in the platform enum. -/
def ApplicationCommandTypeChatInput : Nat := 1

/-- The numeric discriminator of user context-menu commands. -/
def ApplicationCommandTypeUser : Nat := 2

/-- The numeric discriminator of message context-menu commands. -/
def ApplicationCommandTypeMessage : Nat := 3

/-- An application command as fetched from the platform, the input of
convertCommandToTopGGFormat (src/discordjs/index.js lines 122-159). -/
structure CommandDescriptor where
  id : String
  name : String
  type : Nat
  description : String
  options : List OptionDescriptor
  defaultMemberPermissions : Option String

/-- The converted command payload posted to the directory. -/
structure CommandData where
  id : String
  application_id : String
  name : String
  version : String
  type : Nat
  description : String
  options : Option (List OptionData)
  default_member_permissions : Option String

/-- TopGGIntegration.convertCommandToTopGGFormat (src/discordjs/index.js
lines 122-159).  Context-menu commands (type User or Message) keep their
type and get an empty description; every other command gets the fixed
chat-input discriminator 1, a description coalesced to a placeholder, and
its options converted when the list is nonempty.  The catch branch of the
source returns null; no failure can arise in the pure model, so the
result is always some. -/
def convertCommandToTopGGFormat (applicationId : String)
    (command : CommandDescriptor) : Option CommandData :=
  if command.type = ApplicationCommandTypeUser ∨
      command.type = ApplicationCommandTypeMessage then
    some { id := command.id, application_id := applicationId,
           name := command.name, version := "1",
           type := command.type, description := "",
           options := none,
           default_member_permissions := command.defaultMemberPermissions }
  else
    some { id := command.id, application_id := applicationId,
           name := command.name, version := "1",
           type := 1,
           description := if command.description = "" then "No description"
                          else command.description,
           options := if command.options.length > 0 then
                        some (convertOptionList command.options)
                      else none,
           default_member_permissions := command.defaultMemberPermissions }

/-- The environment of one postCommandsToTopGG call: the configured token,
the application id, the outcome of client.application.commands.fetch, and
the outcome of the axios POST when it is issued (an HTTP status when a
response arrives, or the message of a thrown error). -/
structure PublishEnv where
  commandsToken : String
  applicationId : String
  fetchResult : Except String (List CommandDescriptor)
  postResult : Except String Nat

/-- TopGGIntegration.getBotCommandsForTopGG (src/discordjs/index.js lines
97-120): on fetch failure returns the empty list; otherwise converts each
command and pushes the non-null results. -/
def getBotCommandsForTopGG (env : PublishEnv) : List CommandData :=
  match env.fetchResult with
  | .error _ => []
  | .ok commands =>
      commands.foldl
        (fun commandsList command =>
          match convertCommandToTopGGFormat env.applicationId command with
          | some commandData => commandsList ++ [commandData]
          | none => commandsList)
        []

/-- The observable outcome of postCommandsToTopGG: the boolean return
value, and whether the POST to the directory endpoint was issued. -/
structure PublishOutcome where
  result : Bool
  posted : Bool
deriving DecidableEq

/-- TopGGIntegration.postCommandsToTopGG (src/discordjs/index.js lines
62-95): an empty token returns false before any call; an empty converted
batch returns false without posting; otherwise the POST is issued and the
call returns true exactly on status 200 or 204, with any thrown error
caught and turned into false. -/
def postCommandsToTopGG (env : PublishEnv) : PublishOutcome :=
  if env.commandsToken = "" then ⟨false, false⟩
  else
    let commandsData := getBotCommandsForTopGG env
    if commandsData.length = 0 then ⟨false, false⟩
    else
      match env.postResult with
      | .error _ => ⟨false, true⟩
      | .ok status =>
          if status = 200 ∨ status = 204 then ⟨true, true⟩ else ⟨false, true⟩

/-- A registered application command as handled by CommandSyncer: the
merge logic reads only the name; the data field stands for the rest of
the JSON payload. -/
structure Cmd where
  name : String
  data : String
deriving DecidableEq

/-- The first desired command built in syncCommands (lines 226-233). -/
def pingCommand : Cmd := ⟨"ping", "Check bot latency"⟩

/-- The second desired command built in syncCommands (lines 226-233). -/
def infoCommand : Cmd := ⟨"info", "Get bot information"⟩

/-- The fixed desired-command list of syncCommands (lines 226-233). -/
def newCommands : List Cmd := [pingCommand, infoCommand]

/-- Array.prototype.findIndex as used on line 239, with none for -1. -/
def findCommandIndex (p : Cmd → Bool) : List Cmd → Option Nat
  | [] => none
  | c :: cs => if p c then some 0 else (findCommandIndex p cs).map (· + 1)

/-- One iteration of the merge loop of syncCommands (lines 238-249):
replace the first command with the same name in place, or append. -/
def upsertCommand (allCommands : List Cmd) (newCmd : Cmd) : List Cmd :=
  match findCommandIndex (fun cmd => cmd.name == newCmd.name) allCommands with
  | some i => allCommands.set i newCmd
  | none => allCommands ++ [newCmd]

/-- The merge loop of syncCommands (lines 236-249): fold the desired
commands over the fetched existing list. -/
def mergeCommands (existingCommands : List Cmd) : List Cmd :=
  List.foldl upsertCommand existingCommands newCommands

/-- The environment of one syncCommands call: the outcome of the fetch of
existing commands (rest.get), the outcome of the bulk overwrite
(rest.put, giving back the synced list or a thrown error message), and
the outcome of the per-command rest.post of the individual fallback,
keyed by command name. -/
structure SyncEnv where
  fetchResult : Except String (List Cmd)
  putResult : Except String (List Cmd)
  createResult : String → Except String Unit

/-- Whether an Except outcome is a success. -/
def exceptOk {ε α : Type} : Except ε α → Bool
  | .ok _ => true
  | .error _ => false

/-- The try/catch around the fetch in syncCommands (lines 213-223): a
fetch failure is logged and leaves existingCommands as the empty list. -/
def existingOf (env : SyncEnv) : List Cmd :=
  match env.fetchResult with
  | .ok cmds => cmds
  | .error _ => []

/-- String.prototype.includes as used on lines 274 and 314. -/
def includesSubstr (s pat : String) : Bool :=
  (s.splitOn pat).length != 1

/-- CommandSyncer.createCommandsIndividually (src/discordjs/index.js
lines 283-328): posts each desired command in turn; a thrown error (such
as an already-exists rejection) is caught inside the loop, so every
command is attempted and only successful creates are counted.  Returns
the count together with the names attempted, in order. -/
def createCommandsIndividually (env : SyncEnv) : Nat × List String :=
  List.foldl
    (fun acc command =>
      match env.createResult command.name with
      | .ok _ => (acc.1 + 1, acc.2 ++ [command.name])
      | .error _ => (acc.1, acc.2 ++ [command.name]))
    (0, []) newCommands

/-- The observable outcome of syncCommands: the body handed to the bulk
overwrite when that call is made, the returned count, and whether the
individual-creation fallback ran. -/
structure SyncOutcome where
  sentBody : Option (List Cmd)
  returned : Nat
  usedFallback : Bool
deriving DecidableEq

/-- CommandSyncer.syncCommands (src/discordjs/index.js lines 208-281):
fetch existing commands (failure giving the empty list), merge in the
desired commands, bulk-overwrite with the combined list, and on a thrown
error fall back to individual creation when the message mentions the
entry-point marker, returning 0 otherwise. -/
def syncCommands (env : SyncEnv) : SyncOutcome :=
  let existingCommands := existingOf env
  let allCommands := mergeCommands existingCommands
  match env.putResult with
  | .ok synced => ⟨some allCommands, synced.length, false⟩
  | .error msg =>
      if includesSubstr msg "Entry Point" then
        ⟨some allCommands, (createCommandsIndividually env).1, true⟩
      else
        ⟨some allCommands, 0, false⟩

/-- The timer state of TopGGIntegration: fresh interval ids, the set of
intervals currently scheduled (a periodic publish invocation can fire
only from an id in active), and the stored handle
this.periodicCommandsInterval. -/
structure TimerState where
  nextId : Nat
  active : List Nat
  periodicCommandsInterval : Option Nat
deriving DecidableEq

/-- The state before any start: no interval scheduled, no handle. -/
def initialTimerState : TimerState := ⟨0, [], none⟩

/-- TopGGIntegration.startPeriodicUpdates (src/discordjs/index.js lines
182-193): setInterval schedules a fresh interval and its handle
overwrites this.periodicCommandsInterval. -/
def startPeriodicUpdates (s : TimerState) : TimerState :=
  { nextId := s.nextId + 1,
    active := s.active ++ [s.nextId],
    periodicCommandsInterval := some s.nextId }

/-- TopGGIntegration.stopPeriodicUpdates (src/discordjs/index.js lines
195-200): when the stored handle is set, clearInterval removes that
interval (a no-op when it is already gone); the handle itself is never
reset. -/
def stopPeriodicUpdates (s : TimerState) : TimerState :=
  match s.periodicCommandsInterval with
  | some h => { s with active := s.active.filter (fun i => i != h) }
  | none => s

/-- The number of scheduled intervals that can still fire a periodic
publish invocation. -/
def pendingPublishTimers (s : TimerState) : Nat := s.active.length

/-- A concrete context-menu command used to instantiate the claim about
context-menu conversion. -/
def contextMenuCommand : CommandDescriptor :=
  ⟨"10", "UserInfo", 2, "", [], none⟩

/-- A concrete chat-input command with an empty description used to
instantiate the claim about chat-input conversion. -/
def chatInputCommand : CommandDescriptor :=
  ⟨"11", "mystery", 1, "", [], none⟩

theorem convertOptionList_eq_map (l : List OptionDescriptor) :
    convertOptionList l = l.map convertOptionToTopGGFormat := by
  induction l with
  | nil => simp [convertOptionList]
  | cons o os ih => simp [convertOptionList, ih]

theorem convertOption_mk (n d : String) (t : Nat) (r : Bool)
    (cs : List Choice) (subs : List OptionDescriptor) :
    convertOptionToTopGGFormat (.mk n d t r cs subs) =
      .mk n (if d = "" then "Parameter" else d) t (r || false)
        (if cs.length > 0 then some cs else none)
        (if subs.length > 0 then some (convertOptionList subs) else none) := by
  simp [convertOptionToTopGGFormat]

/-- Claim C6: for every command of a context-menu type (user or message
target), the converter emits a payload whose type equals the input type
unchanged and whose description is the empty string. -/
theorem convertCommand_contextMenu_policy (applicationId : String)
    (command : CommandDescriptor)
    (h : command.type = ApplicationCommandTypeUser ∨
         command.type = ApplicationCommandTypeMessage) :
    ∃ d, convertCommandToTopGGFormat applicationId command = some d ∧
      d.type = command.type ∧ d.description = "" := by
  unfold convertCommandToTopGGFormat
  rw [if_pos h]
  exact ⟨_, rfl, rfl, rfl⟩

theorem convertCommand_contextMenu_policy_witness :
    ∃ d, convertCommandToTopGGFormat "app" contextMenuCommand = some d ∧
      d.type = contextMenuCommand.type ∧ d.description = "" :=
  convertCommand_contextMenu_policy "app" contextMenuCommand (Or.inl rfl)

/-- Claim C7: for every command of chat-input type, the converter emits a
payload with the fixed numeric discriminator 1, copying the description
verbatim when one is present and substituting the placeholder when the
description is absent (the empty string: in the source the descriptor
field is always a string, and absence manifests as the empty string that
the JavaScript coalescing replaces). -/
theorem convertCommand_chatInput_policy (applicationId : String)
    (command : CommandDescriptor)
    (h : command.type = ApplicationCommandTypeChatInput) :
    ∃ d, convertCommandToTopGGFormat applicationId command = some d ∧
      d.type = 1 ∧
      (command.description ≠ "" → d.description = command.description) ∧
      (command.description = "" → d.description = "No description") := by
  unfold convertCommandToTopGGFormat
  have hne : ¬(command.type = ApplicationCommandTypeUser ∨
      command.type = ApplicationCommandTypeMessage) := by
    rw [h]; decide
  rw [if_neg hne]
  refine ⟨_, rfl, rfl, ?_, ?_⟩
  · intro hd; simp [hd]
  · intro hd; simp [hd]

theorem convertCommand_chatInput_policy_witness :
    ∃ d, convertCommandToTopGGFormat "app" chatInputCommand = some d ∧
      d.type = 1 ∧
      (chatInputCommand.description ≠ "" →
        d.description = chatInputCommand.description) ∧
      (chatInputCommand.description = "" → d.description = "No description") :=
  convertCommand_chatInput_policy "app" chatInputCommand rfl

/-- Claim C8: at every nesting depth the option converter copies name,
type and required, substitutes the placeholder for an absent (empty)
description, includes the choices list unchanged exactly when it is
nonempty and omits the field otherwise, and includes the recursively
converted sub-options exactly when they are present, omitting the field
otherwise. -/
theorem convertOption_policy (o : OptionDescriptor) :
    (convertOptionToTopGGFormat o).name = o.name ∧
    (convertOptionToTopGGFormat o).type = o.type ∧
    (convertOptionToTopGGFormat o).required = o.required ∧
    (convertOptionToTopGGFormat o).description =
      (if o.description = "" then "Parameter" else o.description) ∧
    (convertOptionToTopGGFormat o).choices =
      (if o.choices = [] then none else some o.choices) ∧
    (convertOptionToTopGGFormat o).options =
      (if o.subOptions.length = 0 then none
       else some (o.subOptions.map convertOptionToTopGGFormat)) := by
  cases o with
  | mk n d t r cs subs =>
    rw [convertOption_mk]
    refine ⟨rfl, rfl, Bool.or_false r, rfl, ?_, ?_⟩
    · cases cs with
      | nil => simp [OptionDescriptor.choices, OptionData.choices]
      | cons c cs => simp [OptionDescriptor.choices, OptionData.choices]
    · cases subs with
      | nil => simp [OptionDescriptor.subOptions, OptionData.options]
      | cons o os =>
          simp [OptionDescriptor.subOptions, OptionData.options,
            convertOptionList_eq_map]

/-- A concrete publish environment whose POST answers status 204. -/
def publishEnvOk : PublishEnv :=
  ⟨"token", "app", .ok [chatInputCommand], .ok 204⟩

/-- A concrete publish environment with an empty credential. -/
def publishEnvNoToken : PublishEnv :=
  ⟨"", "app", .ok [chatInputCommand], .ok 200⟩

/-- Claim C3: whenever the POST to the directory endpoint was issued and
completed with an HTTP status, publish returns true exactly on status 200
or 204; when the POST terminates in a thrown error the call still returns
false instead of propagating (the embedding is a total function, so no
exception can escape). -/
theorem postCommandsToTopGG_status_policy (env : PublishEnv) :
    (∀ s, env.postResult = Except.ok s →
      (postCommandsToTopGG env).posted = true →
      ((postCommandsToTopGG env).result = true ↔ (s = 200 ∨ s = 204))) ∧
    (∀ e, env.postResult = Except.error e →
      (postCommandsToTopGG env).result = false) := by
  constructor
  · intro s hs hp
    unfold postCommandsToTopGG at hp ⊢
    by_cases ht : env.commandsToken = ""
    · simp [ht] at hp
    · by_cases hl : (getBotCommandsForTopGG env).length = 0
      · simp [ht, hl] at hp
      · simp only [ht, hl, hs, if_neg, ite_false]
        by_cases hv : s = 200 ∨ s = 204
        · simp [ht, hl, hv]
        · simp [ht, hl, hv]
  · intro e he
    unfold postCommandsToTopGG
    by_cases ht : env.commandsToken = ""
    · simp [ht]
    · by_cases hl : (getBotCommandsForTopGG env).length = 0
      · simp [ht, hl]
      · simp [ht, hl, he]

theorem postCommandsToTopGG_status_policy_witness :
    (postCommandsToTopGG publishEnvOk).result = true ↔ (204 = 200 ∨ 204 = 204) :=
  (postCommandsToTopGG_status_policy publishEnvOk).1 204 rfl (by decide)

/-- Claim C4: with an empty credential, or with an empty batch of
converted commands, publish returns false and never issues the POST to
the directory endpoint. -/
theorem postCommandsToTopGG_no_call_policy (env : PublishEnv)
    (h : env.commandsToken = "" ∨ getBotCommandsForTopGG env = []) :
    (postCommandsToTopGG env).result = false ∧
    (postCommandsToTopGG env).posted = false := by
  unfold postCommandsToTopGG
  rcases h with ht | hb
  · simp [ht]
  · by_cases ht : env.commandsToken = ""
    · simp [ht]
    · simp [ht, hb]

theorem postCommandsToTopGG_no_call_policy_witness :
    (postCommandsToTopGG publishEnvNoToken).result = false ∧
    (postCommandsToTopGG publishEnvNoToken).posted = false :=
  postCommandsToTopGG_no_call_policy publishEnvNoToken (Or.inl rfl)

/-- In-place replacement by name: the effect of one merge-loop iteration
on a position whose command may share the desired name. -/
def replaceByName (d c : Cmd) : Cmd := if c.name = d.name then d else c

/-- The combined effect of the two merge-loop iterations (ping first,
then info) on one existing position. -/
def substDesired (c : Cmd) : Cmd :=
  replaceByName infoCommand (replaceByName pingCommand c)

theorem replaceByName_of_eq (d c : Cmd) (h : c.name = d.name) :
    replaceByName d c = d := by
  unfold replaceByName; rw [if_pos h]

theorem replaceByName_of_ne (d c : Cmd) (h : c.name ≠ d.name) :
    replaceByName d c = c := by
  unfold replaceByName; rw [if_neg h]

theorem replaceByName_name (d c : Cmd) : (replaceByName d c).name = c.name := by
  by_cases h : c.name = d.name
  · rw [replaceByName_of_eq d c h, h]
  · rw [replaceByName_of_ne d c h]

theorem upsertCommand_cons (c : Cmd) (cs : List Cmd) (d : Cmd) :
    upsertCommand (c :: cs) d =
      if c.name == d.name then d :: cs else c :: upsertCommand cs d := by
  unfold upsertCommand
  by_cases h : c.name == d.name
  · simp [findCommandIndex, h]
  · rw [show findCommandIndex (fun cmd => cmd.name == d.name) (c :: cs) =
        (findCommandIndex (fun cmd => cmd.name == d.name) cs).map (· + 1) from by
      simp [findCommandIndex, h]]
    cases hfc : findCommandIndex (fun cmd => cmd.name == d.name) cs with
    | none => simp [h]
    | some i => simp [h]

theorem upsertCommand_not_found (l : List Cmd) (d : Cmd)
    (h : ∀ c ∈ l, c.name ≠ d.name) : upsertCommand l d = l ++ [d] := by
  induction l with
  | nil => rfl
  | cons c cs ih =>
      rw [upsertCommand_cons]
      have hc : ¬(c.name == d.name) = true := by
        simpa using h c (List.mem_cons_self c cs)
      rw [if_neg hc, ih (fun e he => h e (List.mem_cons_of_mem c he)),
        List.cons_append]

theorem upsertCommand_found (l : List Cmd) (d : Cmd)
    (hmem : d.name ∈ l.map Cmd.name) (hnodup : (l.map Cmd.name).Nodup) :
    upsertCommand l d = l.map (replaceByName d) := by
  induction l with
  | nil => simp at hmem
  | cons c cs ih =>
      rw [List.map_cons] at hnodup
      have hnd := List.nodup_cons.mp hnodup
      rw [upsertCommand_cons, List.map_cons]
      by_cases h : c.name = d.name
      · rw [if_pos (by simpa using h), replaceByName_of_eq d c h]
        have htail : cs.map (replaceByName d) = cs := by
          have hpt : ∀ e ∈ cs, replaceByName d e = id e := by
            intro e he
            have hne : e.name ≠ d.name := by
              intro hE
              exact hnd.1 (List.mem_map.mpr ⟨e, he, hE.trans h.symm⟩)
            rw [replaceByName_of_ne d e hne]; rfl
          rw [List.map_congr_left hpt, List.map_id]
        rw [htail]
      · rw [if_neg (by simpa using h), replaceByName_of_ne d c
          (fun hE => h hE)]
        have hmem2 : d.name ∈ cs.map Cmd.name := by
          rcases (by simpa using hmem :
              d.name = c.name ∨ ∃ a ∈ cs, a.name = d.name) with h1 | ⟨e, he, hE⟩
          · exact absurd h1.symm h
          · exact List.mem_map.mpr ⟨e, he, hE⟩
        rw [ih hmem2 hnd.2]

theorem any_name_eq_true (l : List Cmd) (s : String) :
    l.any (fun c => c.name == s) = true ↔ s ∈ l.map Cmd.name := by
  rw [List.any_eq_true]
  constructor
  · rintro ⟨c, hc, hbeq⟩
    exact List.mem_map.mpr ⟨c, hc, by simpa using hbeq⟩
  · intro hm
    rcases List.mem_map.mp hm with ⟨c, hc, hE⟩
    exact ⟨c, hc, by simpa using hE⟩

theorem any_name_eq_false (l : List Cmd) (s : String) :
    l.any (fun c => c.name == s) = false ↔ ∀ c ∈ l, c.name ≠ s := by
  simp [List.any_eq_false]

theorem map_name_map_replace (d : Cmd) (l : List Cmd) :
    (l.map (replaceByName d)).map Cmd.name = l.map Cmd.name := by
  rw [List.map_map]
  refine List.map_congr_left ?_
  intro c _
  exact replaceByName_name d c

/-- The merge loop of syncCommands in closed form: on an existing list
with pairwise-distinct names, each existing position is replaced in place
by the desired command of the same name when there is one (and kept
otherwise), and each desired command whose name does not occur is
appended after all existing commands, ping before info. -/
theorem mergeCommands_characterization (l : List Cmd)
    (hnodup : (l.map Cmd.name).Nodup) :
    mergeCommands l =
      (l.map substDesired)
      ++ (if l.any (fun c => c.name == "ping") then [] else [pingCommand])
      ++ (if l.any (fun c => c.name == "info") then [] else [infoCommand]) := by
  have hmerge : mergeCommands l =
      upsertCommand (upsertCommand l pingCommand) infoCommand := rfl
  by_cases hp : l.any (fun c => c.name == "ping") = true
  · have hp2 : pingCommand.name ∈ l.map Cmd.name :=
      (any_name_eq_true l "ping").mp hp
    have h1 : upsertCommand l pingCommand = l.map (replaceByName pingCommand) :=
      upsertCommand_found l pingCommand hp2 hnodup
    by_cases hi : l.any (fun c => c.name == "info") = true
    · have hi2 : infoCommand.name ∈
          (l.map (replaceByName pingCommand)).map Cmd.name := by
        rw [map_name_map_replace]
        exact (any_name_eq_true l "info").mp hi
      have hnd2 : (((l.map (replaceByName pingCommand))).map Cmd.name).Nodup := by
        rw [map_name_map_replace]; exact hnodup
      have h2 := upsertCommand_found _ infoCommand hi2 hnd2
      rw [hmerge, h1, h2, List.map_map, if_pos hp, if_pos hi,
        List.append_nil, List.append_nil]
      rfl
    · have hi2 : ∀ c ∈ l.map (replaceByName pingCommand),
          c.name ≠ infoCommand.name := by
        intro c hc
        rcases List.mem_map.mp hc with ⟨e, he, rfl⟩
        rw [replaceByName_name]
        exact (any_name_eq_false l "info").mp (by simpa using hi) e he
      have h2 := upsertCommand_not_found _ infoCommand hi2
      rw [hmerge, h1, h2, if_pos hp, if_neg hi, List.append_nil]
      congr 1
      refine List.map_congr_left ?_
      intro c hc
      have hcn : (replaceByName pingCommand c).name ≠ infoCommand.name := by
        rw [replaceByName_name]
        exact (any_name_eq_false l "info").mp (by simpa using hi) c hc
      unfold substDesired
      rw [replaceByName_of_ne infoCommand _ hcn]
  · have hp2 : ∀ c ∈ l, c.name ≠ pingCommand.name :=
      (any_name_eq_false l "ping").mp (by simpa using hp)
    have h1 : upsertCommand l pingCommand = l ++ [pingCommand] :=
      upsertCommand_not_found l pingCommand hp2
    by_cases hi : l.any (fun c => c.name == "info") = true
    · have hmem : infoCommand.name ∈ (l ++ [pingCommand]).map Cmd.name := by
        rw [List.map_append]
        exact List.mem_append.mpr (Or.inl ((any_name_eq_true l "info").mp hi))
      have hnd : ((l ++ [pingCommand]).map Cmd.name).Nodup := by
        rw [List.map_append]
        refine List.Nodup.append hnodup (List.nodup_singleton _) ?_
        intro a ha hb
        rcases List.mem_map.mp ha with ⟨e, he, rfl⟩
        rw [List.map_cons, List.map_nil] at hb
        exact hp2 e he (List.mem_singleton.mp hb)
      have h2 := upsertCommand_found _ infoCommand hmem hnd
      rw [hmerge, h1, h2, List.map_append, List.map_cons, List.map_nil,
        replaceByName_of_ne infoCommand pingCommand (by decide),
        if_neg hp, if_pos hi, List.append_nil]
      congr 1
      refine List.map_congr_left ?_
      intro c hc
      unfold substDesired
      rw [replaceByName_of_ne pingCommand c (hp2 c hc)]
    · have hall : ∀ c ∈ l ++ [pingCommand], c.name ≠ infoCommand.name := by
        intro c hc
        rcases List.mem_append.mp hc with h1c | h2c
        · exact (any_name_eq_false l "info").mp (by simpa using hi) c h1c
        · rw [List.mem_singleton.mp h2c]; decide
      have h2 := upsertCommand_not_found _ infoCommand hall
      rw [hmerge, h1, h2, if_neg hp, if_neg hi]
      congr 2
      have hid : ∀ c ∈ l, substDesired c = id c := by
        intro c hc
        unfold substDesired
        rw [replaceByName_of_ne pingCommand c (hp2 c hc),
          replaceByName_of_ne infoCommand c
            ((any_name_eq_false l "info").mp (by simpa using hi) c hc)]
        rfl
      rw [List.map_congr_left hid, List.map_id]

/-- In every branch of syncCommands the body handed to the bulk put is
the merged list. -/
theorem syncCommands_sentBody (env : SyncEnv) :
    (syncCommands env).sentBody = some (mergeCommands (existingOf env)) := by
  unfold syncCommands
  cases h : env.putResult with
  | ok synced => simp [h]
  | error msg =>
      by_cases hic : includesSubstr msg "Entry Point" <;> simp [h, hic]

/-- A command registered by other means, as in the entry-point example. -/
def entryPointCommand : Cmd := ⟨"entrypoint", "protected"⟩

/-- A concrete sync environment with one existing non-conflicting
command and a successful bulk put. -/
def syncEnvMerge : SyncEnv :=
  ⟨.ok [entryPointCommand], .ok [], fun _ => .ok ()⟩

/-- A concrete sync environment whose bulk put fails with an entry-point
message, with the ping create rejected as already existing. -/
def syncEnvEntryPoint : SyncEnv :=
  ⟨.ok [], .error "blocked by Entry Point command",
   fun n => if n == "ping" then .error "already exists" else .ok ()⟩

/-- A concrete sync environment whose fetch of existing commands fails. -/
def syncEnvFetchFail : SyncEnv :=
  ⟨.error "network down", .ok [], fun _ => .ok ()⟩

/-- Claim C1: for each desired command (ping, info), the combined list
handed to the bulk-overwrite endpoint replaces an existing command of the
same name in place (map substDesired keeps every position, replaces a
matching name by the desired command and keeps non-conflicting commands
unchanged, so order is stable and nothing is duplicated) and appends the
desired command after all existing commands otherwise.  The hypothesis
that the fetched names are pairwise distinct is the platform invariant on
registered command sets. -/
theorem syncCommands_merge_policy (env : SyncEnv)
    (hnodup : ((existingOf env).map Cmd.name).Nodup) :
    (syncCommands env).sentBody = some (
      ((existingOf env).map substDesired)
      ++ (if (existingOf env).any (fun c => c.name == "ping") then []
          else [pingCommand])
      ++ (if (existingOf env).any (fun c => c.name == "info") then []
          else [infoCommand])) := by
  rw [syncCommands_sentBody env, mergeCommands_characterization _ hnodup]

theorem syncCommands_merge_policy_witness :
    (syncCommands syncEnvMerge).sentBody =
      some [entryPointCommand, pingCommand, infoCommand] := by
  rw [syncCommands_merge_policy syncEnvMerge (by decide)]
  decide

/-- The individual fallback in closed form: every desired command is
attempted, in order, and exactly the successful creates are counted. -/
theorem createCommandsIndividually_eq (env : SyncEnv) :
    createCommandsIndividually env =
      ((newCommands.filter (fun c => exceptOk (env.createResult c.name))).length,
        newCommands.map Cmd.name) := by
  cases hp : env.createResult "ping" <;> cases hi : env.createResult "info" <;>
    simp [createCommandsIndividually, newCommands, pingCommand, infoCommand,
      exceptOk, hp, hi, List.filter]

/-- Claim C2: when the bulk put throws an error whose message contains
the entry-point marker, syncCommands falls back to individual creation
against the same scope, attempts every desired command (a failing create,
such as an already-exists rejection, is not counted and does not stop the
remaining creates) and returns the number of creates that succeeded;
when the message does not contain the marker, syncCommands returns 0. -/
theorem syncCommands_bulk_failure_policy (env : SyncEnv) (msg : String)
    (h : env.putResult = Except.error msg) :
    (includesSubstr msg "Entry Point" = true →
        (syncCommands env).usedFallback = true ∧
        (syncCommands env).returned =
          (newCommands.filter
            (fun c => exceptOk (env.createResult c.name))).length ∧
        (createCommandsIndividually env).2 = newCommands.map Cmd.name) ∧
    (includesSubstr msg "Entry Point" = false →
        (syncCommands env).usedFallback = false ∧
        (syncCommands env).returned = 0) := by
  constructor
  · intro hic
    unfold syncCommands
    simp [h, hic, createCommandsIndividually_eq]
  · intro hic
    unfold syncCommands
    simp [h, hic]

theorem syncCommands_bulk_failure_policy_witness :
    (includesSubstr "blocked by Entry Point command" "Entry Point" = true →
        (syncCommands syncEnvEntryPoint).usedFallback = true ∧
        (syncCommands syncEnvEntryPoint).returned =
          (newCommands.filter
            (fun c => exceptOk (syncEnvEntryPoint.createResult c.name))).length ∧
        (createCommandsIndividually syncEnvEntryPoint).2 =
          newCommands.map Cmd.name) ∧
    (includesSubstr "blocked by Entry Point command" "Entry Point" = false →
        (syncCommands syncEnvEntryPoint).usedFallback = false ∧
        (syncCommands syncEnvEntryPoint).returned = 0) :=
  syncCommands_bulk_failure_policy syncEnvEntryPoint
    "blocked by Entry Point command" rfl

/-- Claim C5: when the fetch of existing commands fails, syncCommands
behaves exactly as if the existing command list were empty; in
particular the desired commands are still sent to the bulk endpoint
instead of the sync aborting. -/
theorem syncCommands_fetch_failure_policy (env : SyncEnv) (e : String)
    (h : env.fetchResult = Except.error e) :
    syncCommands env = syncCommands { env with fetchResult := Except.ok [] } ∧
    (syncCommands env).sentBody = some newCommands := by
  have hex : existingOf env = [] := by unfold existingOf; rw [h]
  constructor
  · unfold syncCommands
    rw [hex]
    rfl
  · rw [syncCommands_sentBody env, hex]
    decide

theorem syncCommands_fetch_failure_policy_witness :
    syncCommands syncEnvFetchFail =
      syncCommands { syncEnvFetchFail with fetchResult := Except.ok [] } ∧
    (syncCommands syncEnvFetchFail).sentBody = some newCommands :=
  syncCommands_fetch_failure_policy syncEnvFetchFail "network down" rfl

/-- Claim C9: starting periodic updates once and then stopping leaves no
scheduled interval, so no further periodic publish invocation can fire
after the stop call; moreover stopPeriodicUpdates is idempotent and is a
no-op when no start ever ran (the stored handle is still unset). -/
theorem periodicUpdates_stop_policy :
    pendingPublishTimers
        (stopPeriodicUpdates (startPeriodicUpdates initialTimerState)) = 0 ∧
    (∀ s, stopPeriodicUpdates (stopPeriodicUpdates s) = stopPeriodicUpdates s) ∧
    (∀ s, s.periodicCommandsInterval = none → stopPeriodicUpdates s = s) := by
  refine ⟨by decide, ?_, ?_⟩
  · intro s
    cases hs : s.periodicCommandsInterval with
    | none => simp [stopPeriodicUpdates, hs]
    | some h => simp [stopPeriodicUpdates, hs, List.filter_filter]
  · intro s hs
    simp [stopPeriodicUpdates, hs]

theorem periodicUpdates_stop_policy_witness :
    stopPeriodicUpdates initialTimerState = initialTimerState :=
  periodicUpdates_stop_policy.2.2 initialTimerState rfl

/-- Claim C10: a second start without an intervening stop overwrites the
stored handle with the new interval handle, so the following stop cancels
only the most recent interval: the interval created by the first start
stays scheduled and periodic publish invocations can still fire. -/
theorem periodicUpdates_double_start_leak :
    (startPeriodicUpdates (startPeriodicUpdates
        initialTimerState)).periodicCommandsInterval = some 1 ∧
    (stopPeriodicUpdates (startPeriodicUpdates (startPeriodicUpdates
        initialTimerState))).active = [0] ∧
    pendingPublishTimers (stopPeriodicUpdates (startPeriodicUpdates
        (startPeriodicUpdates initialTimerState))) = 1 := by
  decide

end TopGG
